import Mathlib

/-!
Verification of the SSH handshake-transport core of this repository
(`lib/ssh/common.go`, `lib/ssh/client.go`) against its specification.

The Go code is shallowly embedded: pure functions become Lean functions,
the stateful parts of the handshake transport, the flow-control window
and the client channel-handler registry become explicit state-passing
step functions.  Machine integers (`uint32`) are modelled as `Nat` with
explicit `% 2^32` where the Go code can overflow.  Fallible Go functions
returning `(value, error)` become `Except` / `Option` values.
-/

namespace SSH

/-- An algorithm-negotiation failure, as produced by `findCommon` in
`common.go`: it records the category name ("what") and both offered
lists, mirroring the Go error string
`"ssh: no common algorithm for %s; client offered: %v, server offered: %v"`. -/
structure NegotiationError where
  what : String
  clientOffered : List String
  serverOffered : List String
  deriving Repr, DecidableEq

/-- Inner loop of `findCommon` (`common.go` lines 113-117):
`for _, s := range server { if c == s { return c } }` —
scan the server list for an entry equal to `c`. -/
def serverHas (server : List String) (c : String) : Bool :=
  match server with
  | [] => false
  | s :: rest => if c = s then true else serverHas rest c

/-- Outer loop of `findCommon` (`common.go` lines 112-118): iterate the
client list in order, returning the first entry also present in the
server list. -/
def findFirstCommon (client server : List String) : Option String :=
  match client with
  | [] => none
  | c :: rest =>
    if serverHas server c then some c else findFirstCommon rest server

/-- `findCommon` from `common.go` lines 111-120: first client-preferred
entry present in the server list, or a negotiation error naming the
category and both offered lists. -/
def findCommon (what : String) (client server : List String) :
    Except NegotiationError String :=
  match findFirstCommon client server with
  | some c => Except.ok c
  | none => Except.error ⟨what, client, server⟩

/-- `DirectionAlgorithms` from `common.go` lines 122-126. -/
structure DirectionAlgorithms where
  Cipher : String
  MAC : String
  Compression : String
  deriving Repr, DecidableEq

/-- `Algorithms` from `common.go` lines 128-133. -/
structure Algorithms where
  Kex : String
  HostKey : String
  W : DirectionAlgorithms
  R : DirectionAlgorithms
  deriving Repr, DecidableEq

/-- `KexInitMsg` name-list fields and the first-kex-packet-follows flag
(the random cookie and the language lists, which the negotiation never
reads, are omitted). -/
structure KexInitMsg where
  KexAlgos : List String
  ServerHostKeyAlgos : List String
  CiphersClientServer : List String
  CiphersServerClient : List String
  MACsClientServer : List String
  MACsServerClient : List String
  CompressionClientServer : List String
  CompressionServerClient : List String
  FirstKexFollows : Bool
  deriving Repr, DecidableEq

/-- `findAgreedAlgorithms` from `common.go` lines 151-195: sequential
`findCommon` lookups (mirroring the eight `if err != nil return` steps of
the Go function), aborting on the first failure. -/
def findAgreedAlgorithms (clientKexInit serverKexInit : KexInitMsg) :
    Except NegotiationError Algorithms :=
  match findCommon "key exchange" clientKexInit.KexAlgos serverKexInit.KexAlgos with
  | Except.error e => Except.error e
  | Except.ok kex =>
  match findCommon "host key" clientKexInit.ServerHostKeyAlgos
      serverKexInit.ServerHostKeyAlgos with
  | Except.error e => Except.error e
  | Except.ok hostKey =>
  match findCommon "client to server cipher" clientKexInit.CiphersClientServer
      serverKexInit.CiphersClientServer with
  | Except.error e => Except.error e
  | Except.ok wCipher =>
  match findCommon "server to client cipher" clientKexInit.CiphersServerClient
      serverKexInit.CiphersServerClient with
  | Except.error e => Except.error e
  | Except.ok rCipher =>
  match findCommon "client to server MAC" clientKexInit.MACsClientServer
      serverKexInit.MACsClientServer with
  | Except.error e => Except.error e
  | Except.ok wMAC =>
  match findCommon "server to client MAC" clientKexInit.MACsServerClient
      serverKexInit.MACsServerClient with
  | Except.error e => Except.error e
  | Except.ok rMAC =>
  match findCommon "client to server compression" clientKexInit.CompressionClientServer
      serverKexInit.CompressionClientServer with
  | Except.error e => Except.error e
  | Except.ok wComp =>
  match findCommon "server to client compression" clientKexInit.CompressionServerClient
      serverKexInit.CompressionServerClient with
  | Except.error e => Except.error e
  | Except.ok rComp =>
    Except.ok { Kex := kex, HostKey := hostKey,
                W := ⟨wCipher, wMAC, wComp⟩, R := ⟨rCipher, rMAC, rComp⟩ }

/- ### Helper lemmas about findCommon -/

theorem serverHas_iff_mem (server : List String) (c : String) :
    serverHas server c = true ↔ c ∈ server := by
  induction server with
  | nil => simp [serverHas]
  | cons s rest ih =>
    simp only [serverHas, List.mem_cons]
    by_cases h : c = s <;> simp [h, ih]

theorem findFirstCommon_eq_find? (client server : List String) :
    findFirstCommon client server = client.find? (fun c => serverHas server c) := by
  induction client with
  | nil => rfl
  | cons c rest ih =>
    simp only [findFirstCommon, List.find?]
    by_cases h : serverHas server c <;> simp [h, ih]

theorem findFirstCommon_mem {client server : List String} {r : String}
    (h : findFirstCommon client server = some r) : r ∈ client ∧ r ∈ server := by
  rw [findFirstCommon_eq_find?] at h
  have hmem := List.mem_of_find?_eq_some h
  have hsat := List.find?_some h
  exact ⟨hmem, (serverHas_iff_mem server r).mp hsat⟩

theorem findFirstCommon_isSome {client server : List String} {x : String}
    (hc : x ∈ client) (hs : x ∈ server) :
    (findFirstCommon client server).isSome := by
  induction client with
  | nil => simp at hc
  | cons c rest ih =>
    simp only [findFirstCommon]
    by_cases h : serverHas server c
    · simp [h]
    · rcases List.mem_cons.mp hc with rfl | hc'
      · exact absurd ((serverHas_iff_mem server x).mpr hs) (by simpa using h)
      · simpa [h] using ih hc'

theorem findFirstCommon_earliest {client server : List String} {r : String}
    (h : findFirstCommon client server = some r) :
    ∃ pre post, client = pre ++ r :: post ∧ ∀ y ∈ pre, y ∉ server := by
  induction client with
  | nil => simp [findFirstCommon] at h
  | cons c rest ih =>
    simp only [findFirstCommon] at h
    by_cases hc : serverHas server c
    · simp only [hc, if_true, Option.some.injEq] at h
      exact ⟨[], rest, by simp [h], by simp⟩
    · simp only [hc, if_false] at h
      obtain ⟨pre, post, heq, hpre⟩ := ih h
      refine ⟨c :: pre, post, by simp [heq], ?_⟩
      intro y hy
      rcases List.mem_cons.mp hy with rfl | hy'
      · exact fun hmem => hc ((serverHas_iff_mem server y).mpr hmem)
      · exact hpre y hy'

/-- `findFirstCommon` only consults the server list through membership,
so permuting the server list does not change the result. -/
theorem findFirstCommon_perm (client : List String) {server server' : List String}
    (hp : server.Perm server') :
    findFirstCommon client server = findFirstCommon client server' := by
  induction client with
  | nil => rfl
  | cons c rest ih =>
    have hmem : serverHas server c = serverHas server' c := by
      by_cases h : c ∈ server
      · rw [(serverHas_iff_mem server c).mpr h,
          (serverHas_iff_mem server' c).mpr (hp.mem_iff.mp h)]
      · have h' : c ∉ server' := fun hx => h (hp.mem_iff.mpr hx)
        have e1 : serverHas server c = false := by
          by_contra hb
          exact h ((serverHas_iff_mem server c).mp (by simpa using hb))
        have e2 : serverHas server' c = false := by
          by_contra hb
          exact h' ((serverHas_iff_mem server' c).mp (by simpa using hb))
        rw [e1, e2]
    simp only [findFirstCommon, hmem, ih]

/- ### C1 -/

/-- C1: if the client and server algorithm lists share at least one
entry, `findCommon` succeeds and returns the entry that appears earliest
in the client list among those also present in the server list, and
permuting the server list does not change the result. -/
theorem findCommon_earliest_client_preference
    (what : String) (client server : List String) (x : String)
    (hc : x ∈ client) (hs : x ∈ server) :
    ∃ r, findCommon what client server = Except.ok r ∧
      r ∈ client ∧ r ∈ server ∧
      (∃ pre post, client = pre ++ r :: post ∧ ∀ y ∈ pre, y ∉ server) ∧
      (∀ server', server.Perm server' →
        findCommon what client server' = Except.ok r) := by
  have hsome := findFirstCommon_isSome hc hs
  cases hfind : findFirstCommon client server with
  | none => rw [hfind] at hsome; simp at hsome
  | some r =>
    refine ⟨r, ?_, (findFirstCommon_mem hfind).1, (findFirstCommon_mem hfind).2,
      findFirstCommon_earliest hfind, ?_⟩
    · simp [findCommon, hfind]
    · intro server' hp
      simp [findCommon, ← findFirstCommon_perm client hp, hfind]

/-- Witness for C1 at a concrete input: client `["a", "b", "c"]`,
server `["c", "b"]` share `"b"`; the chosen algorithm is `"b"`. -/
theorem findCommon_earliest_client_preference_witness :
    ∃ r, findCommon "kex" ["a", "b", "c"] ["c", "b"] = Except.ok r ∧
      r ∈ ["a", "b", "c"] ∧ r ∈ ["c", "b"] ∧
      (∃ pre post, ["a", "b", "c"] = pre ++ r :: post ∧ ∀ y ∈ pre, y ∉ ["c", "b"]) ∧
      (∀ server', ["c", "b"].Perm server' →
        findCommon "kex" ["a", "b", "c"] server' = Except.ok r) :=
  findCommon_earliest_client_preference "kex" ["a", "b", "c"] ["c", "b"] "b"
    (by decide) (by decide)

/- ### C8: the negotiation categories -/

/-- Whether an `Except` value is a success. -/
def exceptIsOk (x : Except NegotiationError String) : Bool :=
  match x with
  | Except.ok _ => true
  | Except.error _ => false

/-- The negotiation categories, in the exact order `findAgreedAlgorithms`
consults them, each with the client-offered and server-offered list it
passes to `findCommon` (`common.go` lines 154-192). -/
def categoryPairs (c s : KexInitMsg) : List (String × List String × List String) :=
  [("key exchange", c.KexAlgos, s.KexAlgos),
   ("host key", c.ServerHostKeyAlgos, s.ServerHostKeyAlgos),
   ("client to server cipher", c.CiphersClientServer, s.CiphersClientServer),
   ("server to client cipher", c.CiphersServerClient, s.CiphersServerClient),
   ("client to server MAC", c.MACsClientServer, s.MACsClientServer),
   ("server to client MAC", c.MACsServerClient, s.MACsServerClient),
   ("client to server compression", c.CompressionClientServer, s.CompressionClientServer),
   ("server to client compression", c.CompressionServerClient, s.CompressionServerClient)]

/-- The first failing `findCommon` lookup in a list of category lookups. -/
def firstFailure : List (String × List String × List String) → Option NegotiationError
  | [] => none
  | (w, cl, sv) :: rest =>
    match findCommon w cl sv with
    | Except.error e => some e
    | Except.ok _ => firstFailure rest

theorem findCommon_error_shape {what : String} {client server : List String}
    {e : NegotiationError} (h : findCommon what client server = Except.error e) :
    e = ⟨what, client, server⟩ := by
  unfold findCommon at h
  cases hf : findFirstCommon client server <;> simp [hf] at h
  exact h.symm

/-- A first failure is located at the first category whose lookup fails,
all earlier categories having succeeded, and the error names exactly that
category and its two offered lists. -/
theorem firstFailure_located {l : List (String × List String × List String)}
    {e : NegotiationError} (h : firstFailure l = some e) :
    ∃ pre post, l = pre ++ (e.what, e.clientOffered, e.serverOffered) :: post ∧
      ∀ p ∈ pre, exceptIsOk (findCommon p.1 p.2.1 p.2.2) = true := by
  induction l with
  | nil => simp [firstFailure] at h
  | cons hd rest ih =>
    obtain ⟨w, cl, sv⟩ := hd
    simp only [firstFailure] at h
    cases hfc : findCommon w cl sv with
    | error e0 =>
      rw [hfc] at h
      simp only [Option.some.injEq] at h
      subst h
      have := findCommon_error_shape hfc
      subst this
      exact ⟨[], rest, by simp, by simp⟩
    | ok r =>
      rw [hfc] at h
      obtain ⟨pre, post, heq, hpre⟩ := ih h
      refine ⟨(w, cl, sv) :: pre, post, by simp [heq], ?_⟩
      intro p hp
      rcases List.mem_cons.mp hp with rfl | hp'
      · simp [exceptIsOk, hfc]
      · exact hpre p hp'

/-- C8 counterexample input: all of the first seven negotiation
categories share an entry, but the eighth (server-to-client compression)
does not. Under a seven-lookup reading of the negotiation the whole
negotiation would succeed; the code fails naming the eighth category. -/
def kexInitCexClient : KexInitMsg :=
  { KexAlgos := ["k"], ServerHostKeyAlgos := ["h"],
    CiphersClientServer := ["c"], CiphersServerClient := ["c"],
    MACsClientServer := ["m"], MACsServerClient := ["m"],
    CompressionClientServer := ["none"], CompressionServerClient := ["none"],
    FirstKexFollows := false }

/-- C8 counterexample input, server side: agrees with the client on the
first seven categories, offers only `zlib` for server-to-client
compression. -/
def kexInitCexServer : KexInitMsg :=
  { KexAlgos := ["k"], ServerHostKeyAlgos := ["h"],
    CiphersClientServer := ["c"], CiphersServerClient := ["c"],
    MACsClientServer := ["m"], MACsServerClient := ["m"],
    CompressionClientServer := ["none"], CompressionServerClient := ["zlib"],
    FirstKexFollows := false }

/-- C8 counterexample: `findAgreedAlgorithms` performs an eighth
`findCommon` lookup, not seven. On a concrete input whose first seven
categories (the seven the claim counts) all share an entry, the
negotiation nevertheless fails, naming the eighth category
(server-to-client compression). -/
theorem findAgreedAlgorithms_not_seven_lookups :
    (∀ p ∈ (categoryPairs kexInitCexClient kexInitCexServer).take 7,
        exceptIsOk (findCommon p.1 p.2.1 p.2.2) = true) ∧
    findAgreedAlgorithms kexInitCexClient kexInitCexServer =
      Except.error ⟨"server to client compression", ["none"], ["zlib"]⟩ :=
  ⟨by decide, rfl⟩

/-- Helper: `findAgreedAlgorithms` fails with error `e` exactly when the
first failing lookup among the eight category pairs produces `e`. -/
theorem findAgreedAlgorithms_error_iff (c s : KexInitMsg) (e : NegotiationError) :
    findAgreedAlgorithms c s = Except.error e ↔
      firstFailure (categoryPairs c s) = some e := by
  unfold findAgreedAlgorithms categoryPairs firstFailure
  cases h1 : findCommon "key exchange" c.KexAlgos s.KexAlgos with
  | error e1 => simp [h1, firstFailure]
  | ok k =>
  cases h2 : findCommon "host key" c.ServerHostKeyAlgos s.ServerHostKeyAlgos with
  | error e2 => simp [h1, h2, firstFailure]
  | ok hk =>
  cases h3 : findCommon "client to server cipher" c.CiphersClientServer
      s.CiphersClientServer with
  | error e3 => simp [h1, h2, h3, firstFailure]
  | ok wc =>
  cases h4 : findCommon "server to client cipher" c.CiphersServerClient
      s.CiphersServerClient with
  | error e4 => simp [h1, h2, h3, h4, firstFailure]
  | ok rc =>
  cases h5 : findCommon "client to server MAC" c.MACsClientServer s.MACsClientServer with
  | error e5 => simp [h1, h2, h3, h4, h5, firstFailure]
  | ok wm =>
  cases h6 : findCommon "server to client MAC" c.MACsServerClient s.MACsServerClient with
  | error e6 => simp [h1, h2, h3, h4, h5, h6, firstFailure]
  | ok rm =>
  cases h7 : findCommon "client to server compression" c.CompressionClientServer
      s.CompressionClientServer with
  | error e7 => simp [h1, h2, h3, h4, h5, h6, h7, firstFailure]
  | ok wz =>
  cases h8 : findCommon "server to client compression" c.CompressionServerClient
      s.CompressionServerClient with
  | error e8 => simp [h1, h2, h3, h4, h5, h6, h7, h8, firstFailure]
  | ok rz => simp [h1, h2, h3, h4, h5, h6, h7, h8, firstFailure]

/-- Helper: on success, every field of the negotiated `Algorithms`
value is the respective `findCommon` choice. -/
theorem findAgreedAlgorithms_ok_fields (c s : KexInitMsg) (a : Algorithms)
    (ha : findAgreedAlgorithms c s = Except.ok a) :
    findCommon "key exchange" c.KexAlgos s.KexAlgos = Except.ok a.Kex ∧
    findCommon "host key" c.ServerHostKeyAlgos s.ServerHostKeyAlgos
      = Except.ok a.HostKey ∧
    findCommon "client to server cipher" c.CiphersClientServer s.CiphersClientServer
      = Except.ok a.W.Cipher ∧
    findCommon "server to client cipher" c.CiphersServerClient s.CiphersServerClient
      = Except.ok a.R.Cipher ∧
    findCommon "client to server MAC" c.MACsClientServer s.MACsClientServer
      = Except.ok a.W.MAC ∧
    findCommon "server to client MAC" c.MACsServerClient s.MACsServerClient
      = Except.ok a.R.MAC ∧
    findCommon "client to server compression" c.CompressionClientServer
      s.CompressionClientServer = Except.ok a.W.Compression ∧
    findCommon "server to client compression" c.CompressionServerClient
      s.CompressionServerClient = Except.ok a.R.Compression := by
  unfold findAgreedAlgorithms at ha
  cases h1 : findCommon "key exchange" c.KexAlgos s.KexAlgos with
  | error e1 => rw [h1] at ha; exact absurd ha (by simp)
  | ok k =>
  cases h2 : findCommon "host key" c.ServerHostKeyAlgos s.ServerHostKeyAlgos with
  | error e2 => rw [h1, h2] at ha; exact absurd ha (by simp)
  | ok hk =>
  cases h3 : findCommon "client to server cipher" c.CiphersClientServer
      s.CiphersClientServer with
  | error e3 => rw [h1, h2, h3] at ha; exact absurd ha (by simp)
  | ok wc =>
  cases h4 : findCommon "server to client cipher" c.CiphersServerClient
      s.CiphersServerClient with
  | error e4 => rw [h1, h2, h3, h4] at ha; exact absurd ha (by simp)
  | ok rc =>
  cases h5 : findCommon "client to server MAC" c.MACsClientServer s.MACsClientServer with
  | error e5 => rw [h1, h2, h3, h4, h5] at ha; exact absurd ha (by simp)
  | ok wm =>
  cases h6 : findCommon "server to client MAC" c.MACsServerClient s.MACsServerClient with
  | error e6 => rw [h1, h2, h3, h4, h5, h6] at ha; exact absurd ha (by simp)
  | ok rm =>
  cases h7 : findCommon "client to server compression" c.CompressionClientServer
      s.CompressionClientServer with
  | error e7 => rw [h1, h2, h3, h4, h5, h6, h7] at ha; exact absurd ha (by simp)
  | ok wz =>
  cases h8 : findCommon "server to client compression" c.CompressionServerClient
      s.CompressionServerClient with
  | error e8 => rw [h1, h2, h3, h4, h5, h6, h7, h8] at ha; exact absurd ha (by simp)
  | ok rz =>
    rw [h1, h2, h3, h4, h5, h6, h7, h8] at ha
    simp only [Except.ok.injEq] at ha
    subst ha
    exact ⟨rfl, rfl, rfl, rfl, rfl, rfl, rfl, rfl⟩

/-- C8 amended: `findAgreedAlgorithms` composes eight `findCommon`
lookups into one `Algorithms` value, performing them in a fixed category
order (`categoryPairs`), fails on the first category with no common
entry, and the resulting negotiation error names that category and both
offered lists; on success every field of the result is the respective
`findCommon` choice. -/
theorem findAgreedAlgorithms_eight_lookups (c s : KexInitMsg) :
    (categoryPairs c s).length = 8 ∧
    (∀ e, findAgreedAlgorithms c s = Except.error e ↔
        firstFailure (categoryPairs c s) = some e) ∧
    (∀ e, findAgreedAlgorithms c s = Except.error e →
        ∃ pre post,
          categoryPairs c s = pre ++ (e.what, e.clientOffered, e.serverOffered) :: post ∧
          ∀ p ∈ pre, exceptIsOk (findCommon p.1 p.2.1 p.2.2) = true) ∧
    (∀ a, findAgreedAlgorithms c s = Except.ok a →
        findCommon "key exchange" c.KexAlgos s.KexAlgos = Except.ok a.Kex ∧
        findCommon "host key" c.ServerHostKeyAlgos s.ServerHostKeyAlgos
          = Except.ok a.HostKey ∧
        findCommon "client to server cipher" c.CiphersClientServer s.CiphersClientServer
          = Except.ok a.W.Cipher ∧
        findCommon "server to client cipher" c.CiphersServerClient s.CiphersServerClient
          = Except.ok a.R.Cipher ∧
        findCommon "client to server MAC" c.MACsClientServer s.MACsClientServer
          = Except.ok a.W.MAC ∧
        findCommon "server to client MAC" c.MACsServerClient s.MACsServerClient
          = Except.ok a.R.MAC ∧
        findCommon "client to server compression" c.CompressionClientServer
          s.CompressionClientServer = Except.ok a.W.Compression ∧
        findCommon "server to client compression" c.CompressionServerClient
          s.CompressionServerClient = Except.ok a.R.Compression) :=
  ⟨rfl, findAgreedAlgorithms_error_iff c s,
   fun e he => firstFailure_located ((findAgreedAlgorithms_error_iff c s e).mp he),
   fun a ha => findAgreedAlgorithms_ok_fields c s a ha⟩

/-- Witness for the C8 theorem at a concrete input: failure of
`findAgreedAlgorithms` pins down the first failing category pair. -/
theorem findAgreedAlgorithms_eight_lookups_witness :
    firstFailure (categoryPairs kexInitCexClient kexInitCexServer) =
      some ⟨"server to client compression", ["none"], ["zlib"]⟩ :=
  (((findAgreedAlgorithms_eight_lookups kexInitCexClient kexInitCexServer).2.1)
      ⟨"server to client compression", ["none"], ["zlib"]⟩).mp rfl

/- ### C7: the first-kex-packet-follows discard -/

theorem findCommon_ok_mem {w : String} {cl sv : List String} {r : String}
    (h : findCommon w cl sv = Except.ok r) : r ∈ cl ∧ r ∈ sv := by
  unfold findCommon at h
  cases hf : findFirstCommon cl sv with
  | none => rw [hf] at h; exact absurd h (by simp)
  | some x =>
    rw [hf] at h
    simp only [Except.ok.injEq] at h
    subst h
    exact findFirstCommon_mem hf

/-- If the client and server lists begin with the same entry, that entry
is the negotiated choice. -/
theorem findCommon_ok_heads_eq {w : String} {cl sv : List String} {r : String}
    (h : findCommon w cl sv = Except.ok r) (hh : cl.headD "" = sv.headD "") :
    r = cl.headD "" := by
  obtain ⟨h1, h2⟩ := findCommon_ok_mem h
  cases cl with
  | nil => simp at h1
  | cons c cl2 =>
    cases sv with
    | nil => simp at h2
    | cons s sv2 =>
      simp only [List.headD_cons] at hh ⊢
      subst hh
      have hc : findCommon w (c :: cl2) (c :: sv2) = Except.ok c := by
        simp [findCommon, findFirstCommon, serverHas]
      rw [h] at hc
      simpa using hc

/-- The guessed-packet discard decision in `enterKeyExchangeLocked`
(`common.go` lines 793-809). `myInit` is the KEXINIT this side sent,
`otherInit` the one the peer sent, `weAreServer` whether `hostKeys` is
non-empty (`common.go` line 777 chooses the role assignment). The Go code
performs this check only after `findAgreedAlgorithms` succeeded, so
`none` models the abort path where the check is never reached. On
success the lists of both sides are non-empty (a common entry exists),
so `headD ""` coincides with the `[0]` indexing of the Go code. `true`
means exactly one extra packet is read from the connection and
discarded. -/
def guessDiscarded (myInit otherInit : KexInitMsg) (weAreServer : Bool) :
    Option Bool :=
  let clientInit := if weAreServer then otherInit else myInit
  let serverInit := if weAreServer then myInit else otherInit
  match findAgreedAlgorithms clientInit serverInit with
  | Except.error _ => none
  | Except.ok _ =>
    some (otherInit.FirstKexFollows &&
      ((clientInit.KexAlgos.headD "" != serverInit.KexAlgos.headD "") ||
       (clientInit.ServerHostKeyAlgos.headD "" != serverInit.ServerHostKeyAlgos.headD "")))

/-- The discard decision as the claim words it: the peer guess (the
first entries of the peer preference lists) is compared against the
actually-agreed key-exchange and host-key algorithms, and the guessed
packet is discarded exactly when the guess fails to match both. -/
def guessDiscardedSpec (myInit otherInit : KexInitMsg) (weAreServer : Bool) :
    Option Bool :=
  let clientInit := if weAreServer then otherInit else myInit
  let serverInit := if weAreServer then myInit else otherInit
  match findAgreedAlgorithms clientInit serverInit with
  | Except.error _ => none
  | Except.ok algs =>
    some (otherInit.FirstKexFollows &&
      !((otherInit.KexAlgos.headD "" == algs.Kex) &&
        (otherInit.ServerHostKeyAlgos.headD "" == algs.HostKey)))

/-- C7 counterexample input, our side (client role): kex preference list
`["A", "B"]`. -/
def guessCexMyInit : KexInitMsg :=
  { KexAlgos := ["A", "B"], ServerHostKeyAlgos := ["H"],
    CiphersClientServer := ["c"], CiphersServerClient := ["c"],
    MACsClientServer := ["m"], MACsServerClient := ["m"],
    CompressionClientServer := ["none"], CompressionServerClient := ["none"],
    FirstKexFollows := false }

/-- C7 counterexample input, peer side (server role): kex preference
list `["B", "C"]` and the first-kex-packet-follows flag set. The agreed
kex algorithm is `"B"`, which equals the peer guess, and the agreed host
key `"H"` equals the peer host-key guess, yet the code discards a
packet because the first entries of the two lists differ. -/
def guessCexOtherInit : KexInitMsg :=
  { KexAlgos := ["B", "C"], ServerHostKeyAlgos := ["H"],
    CiphersClientServer := ["c"], CiphersServerClient := ["c"],
    MACsClientServer := ["m"], MACsServerClient := ["m"],
    CompressionClientServer := ["none"], CompressionServerClient := ["none"],
    FirstKexFollows := true }

/-- C7 counterexample: the peer sets first-kex-packet-follows and its
guess (`"B"`, `"H"`) matches the actually-agreed kex and host-key
algorithms, so by the claim no extra packet should be consumed — but the
code reads and discards one, because it compares the first entries of
the two preference lists rather than the guess against the agreed
outcome. -/
theorem guessDiscarded_counterexample :
    guessDiscarded guessCexMyInit guessCexOtherInit false = some true ∧
    guessDiscardedSpec guessCexMyInit guessCexOtherInit false = some false ∧
    findAgreedAlgorithms guessCexMyInit guessCexOtherInit =
      Except.ok { Kex := "B", HostKey := "H",
                  W := ⟨"c", "m", "none"⟩, R := ⟨"c", "m", "none"⟩ } :=
  ⟨rfl, rfl, rfl⟩

/-- Helper for C7: whenever the discard condition of the claim holds
(the peer guess differs from the agreed algorithms), the discard
condition of the code (differing first preferences) holds as well. -/
theorem specCond_implies_codeCond {cI sI otherInit : KexInitMsg}
    {algs : Algorithms}
    (hok : findAgreedAlgorithms cI sI = Except.ok algs)
    (hother : otherInit = cI ∨ otherInit = sI)
    (hspec : (otherInit.FirstKexFollows &&
        !((otherInit.KexAlgos.headD "" == algs.Kex) &&
          (otherInit.ServerHostKeyAlgos.headD "" == algs.HostKey))) = true) :
    (otherInit.FirstKexFollows &&
      ((cI.KexAlgos.headD "" != sI.KexAlgos.headD "") ||
       (cI.ServerHostKeyAlgos.headD "" != sI.ServerHostKeyAlgos.headD ""))) = true := by
  obtain ⟨hkex, hhost, -, -, -, -, -, -⟩ := findAgreedAlgorithms_ok_fields cI sI algs hok
  simp only [Bool.and_eq_true, Bool.not_eq_true', Bool.and_eq_false_iff,
    beq_eq_false_iff_ne, ne_eq, Bool.or_eq_true, bne_iff_ne] at hspec ⊢
  refine ⟨hspec.1, ?_⟩
  by_contra hcon
  push_neg at hcon
  obtain ⟨hk, hh⟩ := hcon
  have hak : algs.Kex = cI.KexAlgos.headD "" := findCommon_ok_heads_eq hkex hk
  have hah : algs.HostKey = cI.ServerHostKeyAlgos.headD "" :=
    findCommon_ok_heads_eq hhost hh
  rcases hspec.2 with hne | hne <;> rcases hother with rfl | rfl
  · exact hne (by rw [hak])
  · exact hne (by rw [hak, hk])
  · exact hne (by rw [hah])
  · exact hne (by rw [hah, hh])

/-- C7 amended: given that negotiation succeeds, exactly one extra
packet is read and discarded if and only if the peer set the
first-kex-packet-follows flag and the first entry of the client kex
preference list differs from the first entry of the server kex
preference list, or likewise for the host-key preference lists (RFC 4253
"different preferred algorithm"); comparison is between the two sides
preferred (first-listed) algorithms, not against the agreed outcome.
Whenever the claim condition (guess differs from the agreed algorithms)
holds, the code does discard the packet; the converse fails (see the
counterexample). -/
theorem guessDiscarded_iff_first_preference_mismatch
    (myInit otherInit : KexInitMsg) (weAreServer : Bool) (algs : Algorithms)
    (hok : findAgreedAlgorithms (if weAreServer then otherInit else myInit)
        (if weAreServer then myInit else otherInit) = Except.ok algs) :
    (guessDiscarded myInit otherInit weAreServer =
      some (otherInit.FirstKexFollows &&
        (((if weAreServer then otherInit else myInit).KexAlgos.headD "" !=
          (if weAreServer then myInit else otherInit).KexAlgos.headD "") ||
         ((if weAreServer then otherInit else myInit).ServerHostKeyAlgos.headD "" !=
          (if weAreServer then myInit else otherInit).ServerHostKeyAlgos.headD "")))) ∧
    (guessDiscardedSpec myInit otherInit weAreServer = some true →
      guessDiscarded myInit otherInit weAreServer = some true) := by
  cases weAreServer with
  | false =>
    simp only [Bool.false_eq_true, if_false] at hok ⊢
    refine ⟨by simp [guessDiscarded, hok], fun hspec => ?_⟩
    simp only [guessDiscardedSpec, Bool.false_eq_true, if_false, hok,
      Option.some.injEq] at hspec
    simp only [guessDiscarded, Bool.false_eq_true, if_false, hok, Option.some.injEq]
    exact specCond_implies_codeCond hok (Or.inr rfl) hspec
  | true =>
    simp only [if_true] at hok ⊢
    refine ⟨by simp [guessDiscarded, hok], fun hspec => ?_⟩
    simp only [guessDiscardedSpec, if_true, hok, Option.some.injEq] at hspec
    simp only [guessDiscarded, if_true, hok, Option.some.injEq]
    exact specCond_implies_codeCond hok (Or.inl rfl) hspec

/-- Witness for the C7 theorem at the concrete counterexample input. -/
theorem guessDiscarded_iff_first_preference_mismatch_witness :
    guessDiscarded guessCexMyInit guessCexOtherInit false =
      some (guessCexOtherInit.FirstKexFollows &&
        (((if false then guessCexOtherInit else guessCexMyInit).KexAlgos.headD "" !=
          (if false then guessCexMyInit else guessCexOtherInit).KexAlgos.headD "") ||
         ((if false then guessCexOtherInit
            else guessCexMyInit).ServerHostKeyAlgos.headD "" !=
          (if false then guessCexMyInit
            else guessCexOtherInit).ServerHostKeyAlgos.headD ""))) :=
  (guessDiscarded_iff_first_preference_mismatch guessCexMyInit guessCexOtherInit false
    ⟨"B", "H", ⟨"c", "m", "none"⟩, ⟨"c", "m", "none"⟩⟩ rfl).1

/- ### C2: the session identifier -/

/-- The session-identifier update performed at the end of a successful
key exchange (`common.go` lines 837-840): on the first exchange
(`t.sessionID == nil`) the transport session ID becomes the exchange
hash `result.H`; on every later exchange it is left unchanged; in both
cases `result.SessionID` is assigned the transport session ID. Byte
strings are modelled as `List Nat`. Returns the new transport session ID
together with the `SessionID` field stored into the `kexResult`. -/
def applySessionID (sessionID : Option (List Nat)) (resultH : List Nat) :
    Option (List Nat) × List Nat :=
  match sessionID with
  | none => (some resultH, resultH)
  | some sid => (some sid, sid)

/-- A run of successive completed key exchanges with exchange hashes
`hs` starting from transport session state `s`: the final session ID
together with the `SessionID` carried by every produced `kexResult`, in
order. -/
def runKexExchanges (s : Option (List Nat)) (hs : List (List Nat)) :
    Option (List Nat) × List (List Nat) :=
  match hs with
  | [] => (s, [])
  | h :: rest =>
    let p := applySessionID s h
    let q := runKexExchanges p.1 rest
    (q.1, p.2 :: q.2)

theorem runKexExchanges_some (x : List Nat) (hs : List (List Nat)) :
    runKexExchanges (some x) hs = (some x, hs.map fun _ => x) := by
  induction hs with
  | nil => rfl
  | cons h rest ih => simp [runKexExchanges, applySessionID, ih]

/-- C2: starting with no session ID, an initial exchange with hash `h1`
followed by any number of rekeys leaves the session ID equal to `h1`,
and every exchange on the connection (the first and all rekeys) carries
that same value as its `KexResult.SessionID`. -/
theorem sessionID_set_once (h1 : List Nat) (hs : List (List Nat)) :
    (runKexExchanges none (h1 :: hs)).1 = some h1 ∧
    ∀ sid ∈ (runKexExchanges none (h1 :: hs)).2, sid = h1 := by
  have hrun : runKexExchanges none (h1 :: hs)
      = (some h1, h1 :: hs.map fun _ => h1) := by
    simp [runKexExchanges, applySessionID, runKexExchanges_some]
  rw [hrun]
  refine ⟨rfl, fun sid hsid => ?_⟩
  rcases List.mem_cons.mp hsid with rfl | hmem
  · rfl
  · simp only [List.mem_map] at hmem
    obtain ⟨a, -, ha⟩ := hmem
    exact ha.symm

/-- Witness for C2: two rekeys after the first exchange leave the
session ID at the first exchange hash. -/
theorem sessionID_set_once_witness :
    (runKexExchanges none ([0, 1] :: [[2, 3], [4, 5]])).1 = some [0, 1] :=
  (sessionID_set_once [0, 1] [[2, 3], [4, 5]]).1

/- ### C3, C4: the write path of the handshake transport -/

/-- `msgKexInit`, RFC 4253 message number 20 (declared in the messages
file of the ssh package). -/
def msgKexInit : Nat := 20

/-- `msgNewKeys`, RFC 4253 message number 21. -/
def msgNewKeys : Nat := 21

/-- The write-side state of `handshakeTransport` protected by `t.mu`
(`common.go` lines 472-478): whether a KEXINIT this side sent is
outstanding (`sentInitMsg != nil`), the recorded terminal write error
(`writeError`), and the byte counter since the last key exchange. -/
structure WriteState where
  sentInit : Bool
  writeError : Option String
  writtenSinceKex : Nat
  deriving Repr, DecidableEq

/-- Outcome of one `writePacket` attempt. -/
inductive WriteOutcome where
  | blocked
  | failed (e : String)
  | rejected (e : String)
  | forwarded
  deriving Repr, DecidableEq

/-- `writePacket` (`common.go` lines 715-738) observed at the moment the
wait loop examines the state under `t.mu`: while `sentInitMsg != nil`
and no write error is recorded the caller stays parked on `t.cond`
(`blocked`; the state is untouched and nothing reaches the connection);
once past the loop it fails fast with the recorded write error if any;
otherwise it charges the packet length to the rekey byte counter and
either rejects a raw KEXINIT or NEWKEYS packet as a programming error or
forwards the packet to `t.conn.writePacket`. The proactive rekey trigger
at lines 719-721 sets `sentInitMsg` and is represented by the choice of
starting state. Packets on this path are non-empty (`p[0]` would panic
otherwise), so `headD 0` coincides with `p[0]`. -/
def writePacketStep (s : WriteState) (p : List Nat) : WriteOutcome × WriteState :=
  if s.sentInit = true ∧ s.writeError = none then (WriteOutcome.blocked, s)
  else
    match s.writeError with
    | some e => (WriteOutcome.failed e, s)
    | none =>
      let s2 := { s with writtenSinceKex := s.writtenSinceKex + p.length }
      if p.headD 0 = msgKexInit then
        (WriteOutcome.rejected "ssh: only handshakeTransport can send kexInit", s2)
      else if p.headD 0 = msgNewKeys then
        (WriteOutcome.rejected "ssh: only handshakeTransport can send newKeys", s2)
      else (WriteOutcome.forwarded, s2)

/-- The tail of `readLoop` (`common.go` lines 551-557): when the read
side dies, the write side is marked dead with the same error unless one
is already recorded, and `t.cond.Broadcast()` wakes every parked
writer so each re-examines the state. -/
def recordReadError (s : WriteState) (e : String) : WriteState :=
  if s.writeError = none then { s with writeError := some e } else s

/-- C3: while a KEXINIT is outstanding and no write error is recorded,
`writePacket` blocks without forwarding anything and without changing
state; whenever a write error is recorded, every `writePacket` attempt
returns exactly that error; after the read loop records a connection
failure no writer can block any more and every writer (including those
just woken by the broadcast) completes with the same terminal error —
the first one recorded. -/
theorem writePacket_blocks_and_fails_together
    (s : WriteState) (p : List Nat) (e : String) :
    (s.sentInit = true → s.writeError = none →
        writePacketStep s p = (WriteOutcome.blocked, s)) ∧
    (∀ e0, s.writeError = some e0 →
        (writePacketStep s p).1 = WriteOutcome.failed e0) ∧
    ((recordReadError s e).writeError = some (s.writeError.getD e)) ∧
    (∀ p2, (writePacketStep (recordReadError s e) p2).1 =
        WriteOutcome.failed (s.writeError.getD e)) := by
  refine ⟨fun h1 h2 => by simp [writePacketStep, h1, h2],
    fun e0 he => by simp [writePacketStep, he], ?_, fun p2 => ?_⟩
  · cases hw : s.writeError <;> simp [recordReadError, hw]
  · cases hw : s.writeError <;>
      simp [writePacketStep, recordReadError, hw]

/-- Witness for C3: a writer with a KEXINIT in flight blocks; after the
read loop records a connection failure, the same writer fails with that
error. -/
theorem writePacket_blocks_and_fails_together_witness :
    writePacketStep ⟨true, none, 0⟩ [5] = (WriteOutcome.blocked, ⟨true, none, 0⟩) ∧
    (writePacketStep (recordReadError ⟨true, none, 0⟩ "conn reset") [5]).1 =
      WriteOutcome.failed "conn reset" :=
  ⟨(writePacket_blocks_and_fails_together ⟨true, none, 0⟩ [5] "conn reset").1 rfl rfl,
   (writePacket_blocks_and_fails_together ⟨true, none, 0⟩ [5] "conn reset").2.2.2 [5]⟩

/-- C4: a packet whose first byte is the KEXINIT or NEWKEYS message type
is never forwarded to the underlying connection by `writePacket`, and in
the quiescent state (no outstanding KEXINIT, no recorded error) the call
returns the corresponding programming error. Only the internal rekey
subroutine writes those messages, through `t.conn.writePacket` directly
(`common.go` lines 706 and 843), bypassing this guard. -/
theorem writePacket_rejects_kexinit_newkeys (s : WriteState) (p : List Nat)
    (hmsg : p.headD 0 = msgKexInit ∨ p.headD 0 = msgNewKeys) :
    (writePacketStep s p).1 ≠ WriteOutcome.forwarded ∧
    (s.writeError = none → s.sentInit = false →
      (writePacketStep s p).1 = WriteOutcome.rejected
        (if p.headD 0 = msgKexInit then "ssh: only handshakeTransport can send kexInit"
         else "ssh: only handshakeTransport can send newKeys")) := by
  constructor
  · cases hw : s.writeError with
    | some e0 => simp [writePacketStep, hw]
    | none =>
      by_cases hs : s.sentInit = true
      · simp [writePacketStep, hw, hs]
      · simp only [List.headD_eq_head?, msgKexInit, msgNewKeys] at hmsg
        rcases hmsg with h | h <;>
          simp [writePacketStep, hw, hs, h, msgKexInit, msgNewKeys]
  · intro hw hs
    simp only [List.headD_eq_head?, msgKexInit, msgNewKeys] at hmsg
    rcases hmsg with h | h <;>
      simp [writePacketStep, hw, hs, h, msgKexInit, msgNewKeys]

/-- Witness for C4: a raw KEXINIT packet is rejected with the
programming error. -/
theorem writePacket_rejects_kexinit_newkeys_witness :
    (writePacketStep ⟨false, none, 0⟩ [20]).1 =
      WriteOutcome.rejected "ssh: only handshakeTransport can send kexInit" :=
  (writePacket_rejects_kexinit_newkeys ⟨false, none, 0⟩ [20] (Or.inl rfl)).2 rfl rfl

/- ### C5, C6: the flow-control window -/

/-- `window` from `common.go` lines 337-342: the credit counter `win`
(a `uint32`, so in Go the invariant `win < 2^32` always holds), the
count of currently blocked reservers and the closed flag. The embedded
`sync.Cond` is implicit: waking is modelled by re-running
`windowReserve` on the updated state. -/
structure Window where
  win : Nat
  writeWaiters : Nat
  closed : Bool
  deriving Repr, DecidableEq

/-- `window.add` from `common.go` lines 346-363: adding zero is a no-op;
an addition whose `uint32` sum wraps around below the addend
(`w.win+win < win`, i.e. the exact sum exceeds `2^32 - 1`) is rejected
leaving the credit unchanged; otherwise the credit is increased and all
waiters are woken by a broadcast. Returns the Go boolean result together
with the updated window. -/
def windowAdd (w : Window) (n : Nat) : Bool × Window :=
  if n = 0 then (true, w)
  else if (w.win + n) % 2 ^ 32 < n then (false, w)
  else (true, { w with win := (w.win + n) % 2 ^ 32 })

/-- `window.close` from `common.go` lines 367-372: mark closed and wake
all waiters. -/
def windowClose (w : Window) : Window := { w with closed := true }

/-- Outcome of a `window.reserve` call. -/
inductive ReserveOutcome where
  | blocks (w2 : Window)
  | completes (granted : Nat) (eof : Bool) (w2 : Window)
  deriving Repr, DecidableEq

/-- `window.reserve` from `common.go` lines 377-395: the caller
registers as a waiter and, while no credit is available and the window
is not closed, parks on the condition variable (`blocks`, carrying the
state with the incremented waiter count). Otherwise it deregisters,
takes `min(want, win)` credit, decrements the available credit by the
granted amount, and reports `io.EOF` (the `eof` flag) exactly when the
window is closed. -/
def windowReserve (w : Window) (want : Nat) : ReserveOutcome :=
  let w1 := { w with writeWaiters := w.writeWaiters + 1 }
  if w1.win = 0 ∧ w1.closed = false then ReserveOutcome.blocks w1
  else
    let w2 := { w1 with writeWaiters := w1.writeWaiters - 1 }
    let granted := if w2.win < want then w2.win else want
    ReserveOutcome.completes granted w2.closed { w2 with win := w2.win - granted }

/-- C5: with positive credit `reserve` completes immediately, granting
exactly `min(want, credit)` and decrementing the credit by the granted
amount; with zero credit on an open window it blocks; a completing call
reports the end-of-stream error exactly when the window is closed; a
closed window with zero credit yields `(0, EOF)`; and a blocked reserver
is unblocked by a successful positive `add` or by `close`. -/
theorem window_reserve_contract (w : Window) (want : Nat) :
    (0 < w.win → windowReserve w want =
        ReserveOutcome.completes (min want w.win) w.closed
          { w with win := w.win - min want w.win }) ∧
    (w.win = 0 → w.closed = false →
        windowReserve w want =
          ReserveOutcome.blocks { w with writeWaiters := w.writeWaiters + 1 }) ∧
    (∀ g e w2, windowReserve w want = ReserveOutcome.completes g e w2 →
        (e = true ↔ w.closed = true) ∧ w2.win = w.win - g ∧ g ≤ w.win ∧ g ≤ want) ∧
    (w.win = 0 → w.closed = true →
        windowReserve w want = ReserveOutcome.completes 0 true w) ∧
    (∀ n b w2, 0 < n → windowAdd w n = (b, w2) → b = true →
        ∀ w3, windowReserve w2 want ≠ ReserveOutcome.blocks w3) ∧
    (∀ w3, windowReserve (windowClose w) want ≠ ReserveOutcome.blocks w3) := by
  obtain ⟨win, ww, cl⟩ := w
  refine ⟨?_, ?_, ?_, ?_, ?_, ?_⟩
  · intro hpos
    simp only at hpos
    simp only [windowReserve]
    rw [if_neg (by simp; omega)]
    have hg : (if win < want then win else want) = min want win := by
      rw [Nat.min_def]; split_ifs <;> omega
    simp only [hg]
    simp
  · intro h0 hop
    simp only at h0 hop
    simp [windowReserve, h0, hop]
  · intro g e w2 hres
    simp only [windowReserve] at hres
    by_cases hb : win = 0 ∧ cl = false
    · rw [if_pos (by simpa using hb)] at hres
      exact absurd hres (by simp)
    · rw [if_neg (by simpa using hb)] at hres
      simp only [ReserveOutcome.completes.injEq] at hres
      obtain ⟨hg, he, hw2⟩ := hres
      subst hg; subst he
      have hwin : ({ win := win, writeWaiters := ww, closed := cl } : Window).win
          = win := rfl
      refine ⟨Iff.rfl, ?_, ?_, ?_⟩
      · rw [← hw2]
      · simp only [hwin]
        split_ifs <;> omega
      · split_ifs <;> omega
  · intro h0 hcl
    simp only at h0 hcl
    subst h0; subst hcl
    simp only [windowReserve]
    rw [if_neg (by simp)]
    split_ifs <;> simp_all
  · intro n b w2 hn hadd hb w3
    subst hb
    simp only [windowAdd] at hadd
    rw [if_neg (by omega)] at hadd
    by_cases hov : (win + n) % 2 ^ 32 < n
    · rw [if_pos (by simpa using hov)] at hadd
      exact absurd hadd (by simp)
    · rw [if_neg (by simpa using hov)] at hadd
      simp only [Prod.mk.injEq] at hadd
      obtain ⟨-, hw2⟩ := hadd
      subst hw2
      simp only [windowReserve]
      rw [if_neg (fun hcon => absurd hcon.1 (by simp; omega))]
      simp
  · intro w3
    simp [windowReserve, windowClose]

/-- Witness for C5: a closed window with zero credit yields the granted
amount zero with the end-of-stream flag. -/
theorem window_reserve_contract_witness :
    windowReserve ⟨0, 0, true⟩ 5 = ReserveOutcome.completes 0 true ⟨0, 0, true⟩ :=
  (window_reserve_contract ⟨0, 0, true⟩ 5).2.2.2.1 rfl rfl

/-- C6: `add(0)` succeeds and leaves the credit unchanged; an addition
whose exact sum exceeds the maximum representable credit `2^32 - 1`
fails and leaves the credit unchanged; otherwise the addition succeeds
and the credit becomes exactly the sum. -/
theorem window_add_contract (w : Window) (n : Nat)
    (hw : w.win < 2 ^ 32) (hn : n < 2 ^ 32) :
    (n = 0 → windowAdd w n = (true, w)) ∧
    (2 ^ 32 - 1 < w.win + n → windowAdd w n = (false, w)) ∧
    (w.win + n ≤ 2 ^ 32 - 1 → windowAdd w n = (true, { w with win := w.win + n })) := by
  refine ⟨fun h0 => by simp [windowAdd, h0], ?_, ?_⟩
  · intro hover
    have h0 : n ≠ 0 := by omega
    simp only [windowAdd]
    rw [if_neg h0, if_pos (by omega)]
  · intro hle
    by_cases h0 : n = 0
    · subst h0
      simp [windowAdd]
    · simp only [windowAdd]
      rw [if_neg h0, if_neg (by omega)]
      have : (w.win + n) % 2 ^ 32 = w.win + n := Nat.mod_eq_of_lt (by omega)
      rw [this]

/-- Witness for C6: adding one to a window holding the maximum credit
fails and leaves the window unchanged; adding zero succeeds. -/
theorem window_add_contract_witness :
    windowAdd ⟨2 ^ 32 - 1, 0, false⟩ 1 = (false, ⟨2 ^ 32 - 1, 0, false⟩) ∧
    windowAdd ⟨7, 0, false⟩ 0 = (true, ⟨7, 0, false⟩) :=
  ⟨(window_add_contract ⟨2 ^ 32 - 1, 0, false⟩ 1 (by decide) (by decide)).2.1
      (by decide),
   (window_add_contract ⟨7, 0, false⟩ 0 (by decide) (by decide)).1 rfl⟩

/- ### C9: channel-open handler registration -/

/-- The channel-handler registry of `Client` (`client.go` lines 18-24):
`none` models a `nil` map (the connection has been torn down), `some ts`
a live map whose key set is `ts`. The per-type queues carry nothing the
registration logic inspects beyond their identity, so only the key set
is modelled. -/
structure ClientState where
  channelHandlers : Option (List String)
  deriving Repr, DecidableEq

/-- What `HandleChannelOpen` hands back to its caller. -/
inductive HandleChannelOpenResult where
  | newQueue
  | nilQueue
  | closedQueue
  deriving Repr, DecidableEq

/-- `Client.HandleChannelOpen` (`client.go` lines 29-47): with a `nil`
registry, make a fresh queue, close it immediately and return it (so a
receive completes at once with the zero value instead of blocking
forever); with the type already registered return `nil`; otherwise
create, register and return a fresh buffered queue. -/
def HandleChannelOpen (c : ClientState) (channelType : String) :
    HandleChannelOpenResult × ClientState :=
  match c.channelHandlers with
  | none => (HandleChannelOpenResult.closedQueue, c)
  | some ts =>
    if channelType ∈ ts then (HandleChannelOpenResult.nilQueue, c)
    else (HandleChannelOpenResult.newQueue, ⟨some (channelType :: ts)⟩)

/-- The teardown at the end of `Client.handleChannelOpens` (`client.go`
lines 208-213): every registered queue is closed and the registry is set
to `nil`. -/
def teardownHandlers (_ : ClientState) : ClientState := ⟨none⟩

/-- C9: the first registration of a channel type returns a usable queue
and records the type; a second call with the same type returns `nil`;
with a torn-down registry (and after any teardown) every call returns an
already-closed queue, from which receiving never blocks. -/
theorem handleChannelOpen_contract (c : ClientState) (t : String) :
    (∀ ts, c.channelHandlers = some ts → t ∉ ts →
        HandleChannelOpen c t = (HandleChannelOpenResult.newQueue, ⟨some (t :: ts)⟩) ∧
        (HandleChannelOpen (HandleChannelOpen c t).2 t).1 =
          HandleChannelOpenResult.nilQueue) ∧
    (c.channelHandlers = none →
        HandleChannelOpen c t = (HandleChannelOpenResult.closedQueue, c)) ∧
    (HandleChannelOpen (teardownHandlers c) t).1 =
      HandleChannelOpenResult.closedQueue := by
  refine ⟨fun ts hreg hnew => ?_, fun hnil => ?_, ?_⟩
  · have h1 : HandleChannelOpen c t
        = (HandleChannelOpenResult.newQueue, ⟨some (t :: ts)⟩) := by
      simp [HandleChannelOpen, hreg, hnew]
    refine ⟨h1, ?_⟩
    rw [h1]
    simp [HandleChannelOpen]
  · simp [HandleChannelOpen, hnil]
  · simp [HandleChannelOpen, teardownHandlers]

/-- Witness for C9: registering `"session"` on a fresh registry yields a
queue and records the type; re-registering yields `nil`. -/
theorem handleChannelOpen_contract_witness :
    HandleChannelOpen ⟨some []⟩ "session"
      = (HandleChannelOpenResult.newQueue, ⟨some ["session"]⟩) ∧
    (HandleChannelOpen (HandleChannelOpen ⟨some []⟩ "session").2 "session").1
      = HandleChannelOpenResult.nilQueue :=
  (handleChannelOpen_contract ⟨some []⟩ "session").1 [] rfl (by simp)

/- ### C10: cipher filtering in Config.SetDefaults -/

/-- `defaultCiphers` from `common.go` lines 28-32. -/
def defaultCiphers : List String :=
  ["aes128-ctr", "aes192-ctr", "aes256-ctr", "aes128-gcm@openssh.com",
   "arcfour256", "arcfour128"]

/-- `supportedCompressions` from `common.go` line 83 (`compressionNone`
from line 22). -/
def supportedCompressions : List String := ["none"]

/-- The cipher handling of `Config.SetDefaults` (`common.go` lines
242-256): a `nil` cipher list is first replaced by `defaultCiphers`;
then every entry with no registered cipher-mode implementation
(`cipherModes[c] == nil`; the `cipherModes` table lives in the cipher
file of the package and is passed in as the predicate `registered`) is
dropped by rebuilding the list with `append`, preserving the relative
order of the survivors. A fully filtered-out list leaves the Go slice
`nil`, modelled as `none`. The remaining fields `SetDefaults` touches
(Rand, KeyExchanges, MACs, RekeyThreshold) do not interact with the
cipher list and are not modelled here. -/
def setDefaultsCiphers (registered : String → Bool)
    (ciphers : Option (List String)) : Option (List String) :=
  let cs := ciphers.getD defaultCiphers
  let filtered := cs.foldl (fun acc c => if registered c then acc ++ [c] else acc) []
  if filtered = [] then none else some filtered

/-- The KEXINIT message assembled by `sendKexInitLocked` (`common.go`
lines 681-699): both cipher name-lists are the configured cipher list,
both MAC lists the configured MAC list, compression is the fixed
`supportedCompressions`, and the first-kex-packet-follows flag is never
set (this side never guesses). A `nil` Go slice marshals as the empty
name-list, hence `getD []`. -/
def sendKexInitMsg (keyExchanges : List String) (ciphers : Option (List String))
    (macs hostKeyAlgos : List String) : KexInitMsg :=
  { KexAlgos := keyExchanges,
    ServerHostKeyAlgos := hostKeyAlgos,
    CiphersClientServer := ciphers.getD [],
    CiphersServerClient := ciphers.getD [],
    MACsClientServer := macs,
    MACsServerClient := macs,
    CompressionClientServer := supportedCompressions,
    CompressionServerClient := supportedCompressions,
    FirstKexFollows := false }

theorem foldl_append_eq_filter (registered : String → Bool)
    (cs : List String) (acc : List String) :
    cs.foldl (fun a c => if registered c then a ++ [c] else a) acc
      = acc ++ cs.filter registered := by
  induction cs generalizing acc with
  | nil => simp
  | cons c rest ih =>
    by_cases h : registered c <;>
      simp [List.foldl_cons, h, ih, List.filter_cons]

/-- C10: `SetDefaults` keeps exactly the configured ciphers that have a
registered cipher-mode implementation, in their original relative order
— also for a caller-supplied (non-default) list — and both cipher
name-lists of the KEXINIT built from the resulting configuration contain
only registered ciphers, so a configured but unsupported cipher is never
offered. -/
theorem setDefaults_filters_unsupported_ciphers (registered : String → Bool)
    (cs keyExchanges macs hostKeyAlgos : List String) :
    ((setDefaultsCiphers registered (some cs)).getD [] = cs.filter registered) ∧
    ((setDefaultsCiphers registered none).getD []
        = defaultCiphers.filter registered) ∧
    ((cs.filter registered).Sublist cs) ∧
    (∀ x ∈ cs, registered x = false →
        x ∉ (setDefaultsCiphers registered (some cs)).getD []) ∧
    (∀ x ∈ (sendKexInitMsg keyExchanges (setDefaultsCiphers registered (some cs))
          macs hostKeyAlgos).CiphersClientServer, registered x = true) ∧
    (∀ x ∈ (sendKexInitMsg keyExchanges (setDefaultsCiphers registered (some cs))
          macs hostKeyAlgos).CiphersServerClient, registered x = true) := by
  have hmain : ∀ o : Option (List String),
      (setDefaultsCiphers registered o).getD []
        = (o.getD defaultCiphers).filter registered := by
    intro o
    simp only [setDefaultsCiphers, foldl_append_eq_filter, List.nil_append]
    split_ifs with hemp
    · simp [hemp]
    · simp
  refine ⟨hmain (some cs), hmain none, List.filter_sublist cs, ?_, ?_, ?_⟩
  · intro x hx hreg hmem
    rw [hmain (some cs)] at hmem
    simp only [Option.getD_some] at hmem
    have := List.of_mem_filter hmem
    rw [hreg] at this
    exact absurd this (by simp)
  · intro x hx
    simp only [sendKexInitMsg] at hx
    rw [hmain (some cs)] at hx
    exact List.of_mem_filter hx
  · intro x hx
    simp only [sendKexInitMsg] at hx
    rw [hmain (some cs)] at hx
    exact List.of_mem_filter hx

/-- Witness for C10: a caller-supplied list holding one unsupported and
one supported cipher is filtered down to the supported one. -/
theorem setDefaults_filters_unsupported_ciphers_witness :
    (setDefaultsCiphers (fun x => x == "aes128-ctr")
        (some ["bogus-cipher", "aes128-ctr"])).getD []
      = List.filter (fun x => x == "aes128-ctr") ["bogus-cipher", "aes128-ctr"] :=
  (setDefaults_filters_unsupported_ciphers (fun x => x == "aes128-ctr")
    ["bogus-cipher", "aes128-ctr"] [] [] []).1

end SSH
